import Mathlib

/-!
Verification of the `free_args` module (src/free_args.py): a shallow
embedding of its data model (`FreeArgs` with `ctl_dict`, `doc_list`, and an
optionally attached `config_dict`), its tokenizer `parse_args`, and its
lookup-with-coercion accessor `opt`, together with theorems settling the
specification claims.

Tokens and labels are embedded as `List Char` (Python `str`).  Python
values reachable in this module are embedded by the inductive `Value`.
Python's `re` semantics are embedded by direct string functions: `.` in a
pattern matches any character except a newline, `re.match` anchors at the
start only, and greedy repetition with backtracking is resolved to the
deterministic extraction each of the module's five concrete patterns
performs (each matcher's doc comment states the pattern it embeds).
-/

set_option maxHeartbeats 1000000

namespace FreeArgsSpec

/-- Embedding of the Python values that can flow through this module:
`None`, `bool`, `int`, `float` (finite floats as exact rationals; the
special values `nan`, `inf`, `-inf` as their own constructors — binary
rounding of decimal literals is not modelled, and no claim depends on a
float's numeric value), `str`, and JSON-decoded `list` / `dict`. -/
inductive Value where
  | vNull : Value
  | vBool : Bool → Value
  | vInt : Int → Value
  | vFloat : Rat → Value
  | vNaN : Value
  | vInf : Bool → Value
  | vStr : List Char → Value
  | vList : List Value → Value
  | vDict : List (List Char × Value) → Value

/-- The Python exceptions that can escape the embedded code paths. -/
inductive PyErr where
  | jsonDecodeError : PyErr
  | nameError : PyErr
  | typeError : PyErr
  | valueError : PyErr
  | overflowError : PyErr
deriving DecidableEq

/-- Python `d[k] = v` on a `dict` embedded as an insertion-ordered
association list: an existing key keeps its position and gets the new
value, a new key is appended at the end. -/
def dictInsert (d : List (List Char × Value)) (k : List Char) (v : Value) :
    List (List Char × Value) :=
  match d with
  | [] => [(k, v)]
  | (k', v') :: t => if k' = k then (k, v) :: t else (k', v') :: dictInsert t k v

/-- Python `k in d` / `d[k]` combined: first binding of `k`, if any. -/
def lookupD (d : List (List Char × Value)) (k : List Char) : Option Value :=
  match d with
  | [] => none
  | (k', v') :: t => if k' = k then some v' else lookupD t k

/-- Python `raw_label.split('-')` (split on every hyphen, empty pieces
preserved; the empty string splits to `[""]`). -/
def splitDash : List Char → List (List Char)
  | [] => [[]]
  | c :: t =>
    if c = '-' then [] :: splitDash t
    else
      match splitDash t with
      | [] => [[c]]
      | h :: r => (c :: h) :: r

/-- Python `'_'.join(pieces)`. -/
def joinUnderscore : List (List Char) → List Char
  | [] => []
  | [p] => p
  | p :: q :: r => p ++ '_' :: joinUnderscore (q :: r)

/-- `FreeArgs._transform_label` (line 197): `'_'.join(raw_label.split('-'))`,
i.e. every hyphen of the raw label becomes an underscore. -/
def transform_label (raw : List Char) : List Char :=
  joinUnderscore (splitDash raw)

/-- `re.match('-([^-].*)', arg)` (line 166): succeeds when the token starts
with `-` followed by one character other than `-`; group 1 is that
character followed by the rest of the token truncated at the first
newline (`.` does not match a newline). -/
def matchShort (a : List Char) : Option (List Char) :=
  match a with
  | '-' :: c :: rest =>
    if c = '-' then none else some (c :: rest.takeWhile (fun x => x != '\n'))
  | _ => none

/-- `re.match('--+([^=]+)=json:(.+)', arg)` (line 172), resolved to its
deterministic extraction: with `d` the leading run of dashes (at least 2
required) and `e` the position of the first `=` (required to exist),
greedy `-+` with backtracking makes group 1 start at `min d (e-1)`,
which must be at least 2; the literal `json:` must follow the `=`, and
group 2 is the remainder truncated at the first newline, required
non-empty.  Returns `(group1, group2)`. -/
def matchJson (a : List Char) : Option (List Char × List Char) :=
  let d := (a.takeWhile (fun c => c == '-')).length
  if d < 2 then none
  else
    let e := (a.takeWhile (fun c => c != '=')).length
    if e = a.length then none
    else
      let q := min d (e - 1)
      if q < 2 then none
      else
        let afterEq := a.drop (e + 1)
        if afterEq.take 5 = ['j', 's', 'o', 'n', ':'] then
          let payload := (afterEq.drop 5).takeWhile (fun c => c != '\n')
          if payload = [] then none
          else some ((a.drop q).take (e - q), payload)
        else none

/-- `re.match('--([^=]+)=(.*)', arg)` (line 178): exactly two literal
dashes, then group 1 is everything up to the first `=` (required
non-empty; it may itself contain dashes), then group 2 is the remainder
truncated at the first newline (possibly empty). -/
def matchPlain (a : List Char) : Option (List Char × List Char) :=
  match a with
  | '-' :: '-' :: rest =>
    let pre := rest.takeWhile (fun c => c != '=')
    if pre = [] then none
    else if pre.length = rest.length then none
    else some (pre, (rest.drop (pre.length + 1)).takeWhile (fun c => c != '\n'))
  | _ => none

/-- `re.match('--(.*)', arg)` (line 184): two literal dashes, group 1 is
the remainder truncated at the first newline. -/
def matchFlag (a : List Char) : Option (List Char) :=
  match a with
  | '-' :: '-' :: rest => some (rest.takeWhile (fun c => c != '\n'))
  | _ => none

/-- JSON whitespace, as accepted by `json.loads` between tokens. -/
def isJWs (c : Char) : Bool := c == ' ' || c == '\t' || c == '\n' || c == '\r'

/-- Drop leading JSON whitespace. -/
def skipWs (s : List Char) : List Char := s.dropWhile isJWs

/-- Value of one hexadecimal digit, for `\uXXXX` escapes. -/
def hexVal (c : Char) : Option Nat :=
  if '0' ≤ c ∧ c ≤ '9' then some (c.toNat - 48)
  else if 'a' ≤ c ∧ c ≤ 'f' then some (c.toNat - 87)
  else if 'A' ≤ c ∧ c ≤ 'F' then some (c.toNat - 55)
  else none

/-- Body of a JSON string after the opening quote: returns the decoded
characters and the input remaining after the closing quote.  Escapes
follow RFC 8259 (`\uXXXX` escapes in the surrogate range are not
representable as a Lean `Char` and collapse to `Char.ofNat`'s default;
no claim involves them); unescaped control characters are rejected, as
`json.loads` does in strict mode.  The `Nat` argument is recursion fuel;
callers supply more fuel than the input length. -/
def parseJStrAux : Nat → List Char → Option (List Char × List Char)
  | 0, _ => none
  | fuel + 1, s =>
    match s with
    | [] => none
    | c :: rest =>
      if c = '"' then some ([], rest)
      else if c = '\\' then
        match rest with
        | [] => none
        | e :: rest2 =>
          let esc : Option (Char × List Char) :=
            if e = '"' then some ('"', rest2)
            else if e = '\\' then some ('\\', rest2)
            else if e = '/' then some ('/', rest2)
            else if e = 'b' then some ('\x08', rest2)
            else if e = 'f' then some ('\x0c', rest2)
            else if e = 'n' then some ('\n', rest2)
            else if e = 'r' then some ('\r', rest2)
            else if e = 't' then some ('\t', rest2)
            else if e = 'u' then
              match rest2 with
              | h1 :: h2 :: h3 :: h4 :: rest3 =>
                match hexVal h1, hexVal h2, hexVal h3, hexVal h4 with
                | some x1, some x2, some x3, some x4 =>
                  some (Char.ofNat (((x1 * 16 + x2) * 16 + x3) * 16 + x4), rest3)
                | _, _, _, _ => none
              | _ => none
            else none
          match esc with
          | none => none
          | some (ch, r) =>
            match parseJStrAux fuel r with
            | some (cs, r2) => some (ch :: cs, r2)
            | none => none
      else if c.toNat < 32 then none
      else
        match parseJStrAux fuel rest with
        | some (cs, r2) => some (c :: cs, r2)
        | none => none

/-- Numeric value of a run of decimal digit characters. -/
def digitsVal (ds : List Char) : Nat :=
  ds.foldl (fun a c => a * 10 + (c.toNat - 48)) 0

/-- A JSON number at the head of the input, per the RFC 8259 grammar
(`-? (0 | [1-9][0-9]*) (. [0-9]+)? ([eE] [+-]? [0-9]+)?`): an integer
without fraction or exponent decodes to a Python `int`, anything else to
a `float` (held as the exact rational the decimal literal denotes). -/
def parseJNum (s : List Char) : Option (Value × List Char) :=
  let neg := match s with
    | '-' :: _ => true
    | _ => false
  let s1 := if neg then s.drop 1 else s
  let ip := s1.takeWhile Char.isDigit
  if ip = [] then none
  else if 1 < ip.length ∧ ip.headD '0' = '0' then none
  else
    let s2 := s1.drop ip.length
    let hasFrac := s2.headD ' ' = '.'
    let fd := if hasFrac then (s2.drop 1).takeWhile Char.isDigit else []
    if hasFrac ∧ fd = [] then none
    else
      let s3 := if hasFrac then (s2.drop 1).drop fd.length else s2
      let hasExp := s3.headD ' ' = 'e' ∨ s3.headD ' ' = 'E'
      let s4 := if hasExp then s3.drop 1 else s3
      let expNeg := s4.headD ' ' = '-'
      let s5 := if s4.headD ' ' = '-' ∨ s4.headD ' ' = '+' then s4.drop 1 else s4
      let ed := if hasExp then s5.takeWhile Char.isDigit else []
      if hasExp ∧ ed = [] then none
      else
        let rest := if hasExp then s5.drop ed.length else s3
        if ¬ hasFrac ∧ ¬ hasExp then
          let n : Int := if neg then -(digitsVal ip : Int) else (digitsVal ip : Int)
          some (.vInt n, rest)
        else
          let mag : Rat :=
            ((digitsVal ip : Rat) + (digitsVal fd : Rat) / (10 : Rat) ^ fd.length) *
              (10 : Rat) ^ (if expNeg then -(digitsVal ed : Int) else (digitsVal ed : Int))
          some (.vFloat (if neg then -mag else mag), rest)

mutual

/-- One JSON value at the head of the input (leading whitespace allowed),
as `json.loads` decodes it: objects, arrays, strings, numbers, `true`,
`false`, `null`, and the Python extensions `NaN`, `Infinity`,
`-Infinity`.  Fueled; callers supply more fuel than the input length. -/
def parseVal : Nat → List Char → Option (Value × List Char)
  | 0, _ => none
  | fuel + 1, s =>
    match skipWs s with
    | [] => none
    | c :: rest =>
      if c = '{' then
        match skipWs rest with
        | '}' :: r => some (.vDict [], r)
        | _ => parseObjItems fuel [] rest
      else if c = '[' then
        match skipWs rest with
        | ']' :: r => some (.vList [], r)
        | _ => parseArrItems fuel [] rest
      else if c = '"' then
        match parseJStrAux (fuel + 1) rest with
        | some (cs, r) => some (.vStr cs, r)
        | none => none
      else if c = 't' then
        if rest.take 3 = ['r', 'u', 'e'] then some (.vBool true, rest.drop 3) else none
      else if c = 'f' then
        if rest.take 4 = ['a', 'l', 's', 'e'] then some (.vBool false, rest.drop 4) else none
      else if c = 'n' then
        if rest.take 3 = ['u', 'l', 'l'] then some (.vNull, rest.drop 3) else none
      else if c = 'N' then
        if rest.take 2 = ['a', 'N'] then some (.vNaN, rest.drop 2) else none
      else if c = 'I' then
        if rest.take 7 = ['n', 'f', 'i', 'n', 'i', 't', 'y'] then
          some (.vInf false, rest.drop 7)
        else none
      else if c = '-' ∧ rest.headD ' ' = 'I' then
        if rest.take 8 = ['I', 'n', 'f', 'i', 'n', 'i', 't', 'y'] then
          some (.vInf true, rest.drop 8)
        else none
      else parseJNum (c :: rest)

/-- Comma-separated array items up to the closing bracket. -/
def parseArrItems : Nat → List Value → List Char → Option (Value × List Char)
  | 0, _, _ => none
  | fuel + 1, acc, s =>
    match parseVal fuel s with
    | none => none
    | some (v, r) =>
      match skipWs r with
      | ',' :: r2 => parseArrItems fuel (acc ++ [v]) r2
      | ']' :: r2 => some (.vList (acc ++ [v]), r2)
      | _ => none

/-- Comma-separated `"key": value` object items up to the closing brace;
a repeated key keeps its position and takes the later value, as building
a Python `dict` does. -/
def parseObjItems : Nat → List (List Char × Value) → List Char →
    Option (Value × List Char)
  | 0, _, _ => none
  | fuel + 1, acc, s =>
    match skipWs s with
    | '"' :: r =>
      match parseJStrAux (fuel + 1) r with
      | some (k, r2) =>
        match skipWs r2 with
        | ':' :: r3 =>
          match parseVal fuel r3 with
          | some (v, r4) =>
            match skipWs r4 with
            | ',' :: r5 => parseObjItems fuel (dictInsert acc k v) r5
            | '}' :: r5 => some (.vDict (dictInsert acc k v), r5)
            | _ => none
          | none => none
        | _ => none
      | none => none
    | _ => none

end

/-- `json.loads(payload)` (line 175): decode one JSON document, allowing
trailing whitespace only; `none` is a raised `json.JSONDecodeError`. -/
def json_loads (s : List Char) : Option Value :=
  match parseVal (4 * s.length + 4) s with
  | some (v, r) => if skipWs r = [] then some v else none
  | none => none

/-- The `FreeArgs` instance state: `ctl_dict` and `doc_list` from
`__init__` (lines 76-78), plus the optional `config_dict` a host may
attach via `setattr` (its absence is `none`; `'config_dict' in
self.__dict__` is `config_dict.isSome`). -/
structure FreeArgs where
  ctl_dict : List (List Char × Value)
  doc_list : List (List Char)
  config_dict : Option (List (List Char × Value))

/-- A freshly constructed `FreeArgs()` (lines 76-78). -/
def emptyFA : FreeArgs := ⟨[], [], none⟩

/-- The body of the `for arg in arg_list` loop of `parse_args`
(lines 164-190) acting on one token: the five branches tried in source
order, producing the updated `(ctl_dict, doc_list)` or the raised
`json.JSONDecodeError`. -/
def parseStep (st : List (List Char × Value) × List (List Char)) (arg : List Char) :
    Except PyErr (List (List Char × Value) × List (List Char)) :=
  match matchShort arg with
  | some cs => .ok (cs.foldl (fun d c => dictInsert d [c] (.vInt (-1))) st.1, st.2)
  | none =>
    match matchJson arg with
    | some (lbl, payload) =>
      match json_loads payload with
      | some v => .ok (dictInsert st.1 (transform_label lbl) v, st.2)
      | none => .error .jsonDecodeError
    | none =>
      match matchPlain arg with
      | some (lbl, val) => .ok (dictInsert st.1 (transform_label lbl) (.vStr val), st.2)
      | none =>
        match matchFlag arg with
        | some lbl => .ok (dictInsert st.1 (transform_label lbl) (.vInt (-1)), st.2)
        | none => .ok (st.1, st.2 ++ [arg])

/-- The token loop of `parse_args`: runs `parseStep` left to right; an
exception stops the loop, keeping the state already built. -/
def parseLoop : (List (List Char × Value) × List (List Char)) → List (List Char) →
    ((List (List Char × Value) × List (List Char)) × Option PyErr)
  | st, [] => (st, none)
  | st, a :: rest =>
    match parseStep st a with
    | .ok st' => parseLoop st' rest
    | .error e => (st, some e)

/-- `FreeArgs.parse_args(arg_list)` (lines 140-192): both containers are
reset (lines 161-162), the tokens are scanned, and
`(len(self.ctl_dict), len(self.doc_list))` is returned (line 192) — or
the `json.loads` exception propagates, with the containers holding
whatever the loop built before it was raised. -/
def parse_args (fa : FreeArgs) (arg_list : List (List Char)) :
    FreeArgs × Except PyErr (Nat × Nat) :=
  let r := parseLoop ([], []) arg_list
  ({ fa with ctl_dict := r.1.1, doc_list := r.1.2 },
    match r.2 with
    | none => .ok (r.1.1.length, r.1.2.length)
    | some e => .error e)

/-- `re.search('(-?\d+)', v)` (line 120): the leftmost substring made of
an optional `-` directly followed by a maximal run of one or more
digits.  (`\d` is modelled as the ASCII digits; no claim involves other
Unicode digits.) -/
def reIntSearch : List Char → Option (List Char)
  | [] => none
  | c :: t =>
    if c.isDigit then some (c :: t.takeWhile Char.isDigit)
    else if c = '-' then
      match t with
      | d :: t' => if d.isDigit then some ('-' :: d :: t'.takeWhile Char.isDigit)
                   else reIntSearch t
      | [] => none
    else reIntSearch t

/-- `int(text)` on a `-?digits` string, as produced by `reIntSearch`. -/
def pyIntOfDigits (m : List Char) : Int :=
  match m with
  | '-' :: ds => -(digitsVal ds : Int)
  | ds => (digitsVal ds : Int)

/-- The character class `[\d\.e\+]` of the float-search regex. -/
def floatTailSet (c : Char) : Bool := c.isDigit || c == '.' || c == 'e' || c == '+'

/-- `re.search('(-?\d[\d\.e\+]*)', v)` (line 126): the leftmost substring
made of an optional `-`, a digit, and a maximal run of characters from
`[\d\.e\+]`. -/
def reFloatSearch : List Char → Option (List Char)
  | [] => none
  | c :: t =>
    if c.isDigit then some (c :: t.takeWhile floatTailSet)
    else if c = '-' then
      match t with
      | d :: t' => if d.isDigit then some ('-' :: d :: t'.takeWhile floatTailSet)
                   else reFloatSearch t
      | [] => none
    else reFloatSearch t

/-- `float(text)` (line 128) restricted to the character shapes
`reFloatSearch` can produce (`-?digit` followed by digits, `.`, `e`,
`+`): accepted iff the text is `-? digits+ (. digits*)? (e [+-]? digits+)?`
with nothing left over, the value being the exact rational the decimal
literal denotes (IEEE rounding is not modelled; no claim compares a
converted float's value).  `none` is a raised `ValueError`. -/
def pyFloatLit (m : List Char) : Option Rat :=
  let neg := m.headD ' ' = '-'
  let s1 := if neg then m.drop 1 else m
  let ip := s1.takeWhile Char.isDigit
  if ip = [] then none
  else
    let s2 := s1.drop ip.length
    let hasDot := s2.headD ' ' = '.'
    let fd := if hasDot then (s2.drop 1).takeWhile Char.isDigit else []
    let s3 := if hasDot then (s2.drop 1).drop fd.length else s2
    let hasE := s3.headD ' ' = 'e'
    let s4 := if hasE then s3.drop 1 else s3
    let expNeg := s4.headD ' ' = '-'
    let s5 := if s4.headD ' ' = '+' ∨ s4.headD ' ' = '-' then s4.drop 1 else s4
    let ed := if hasE then s5.takeWhile Char.isDigit else []
    if hasE ∧ ed = [] then none
    else
      let rest := if hasE then s5.drop ed.length else s3
      if rest ≠ [] then none
      else
        let mag : Rat :=
          ((digitsVal ip : Rat) + (digitsVal fd : Rat) / (10 : Rat) ^ fd.length) *
            (10 : Rat) ^ (if expNeg then -(digitsVal ed : Int) else (digitsVal ed : Int))
        some (if neg then -mag else mag)

/-- Truncation toward zero, as Python `int(float)` rounds. -/
def ratTrunc (q : Rat) : Int := q.num.tdiv (q.den : Int)

/-- `int(v)` (line 119) for the non-text values that can reach it:
`int` identity, `bool` to 0/1, finite `float` truncated toward zero,
`None` a `TypeError`, `nan` a `ValueError`, infinities an
`OverflowError`.  (Structured values never reach line 119 — they are
returned at lines 115-116 — and text takes the regex path at lines
120-122; those cases are given Python's `TypeError`-style behaviour for
totality only.) -/
def pyIntExcept : Value → Except PyErr Value
  | .vInt n => .ok (.vInt n)
  | .vBool b => .ok (.vInt (if b then 1 else 0))
  | .vFloat q => .ok (.vInt (ratTrunc q))
  | .vNaN => .error .valueError
  | .vInf _ => .error .overflowError
  | .vNull => .error .typeError
  | .vStr _ => .error .typeError
  | .vList _ => .error .typeError
  | .vDict _ => .error .typeError

/-- `float(v)` (line 125) for the non-text values that can reach it
(same unreachable-case note as `pyIntExcept`). -/
def pyFloatExcept : Value → Except PyErr Value
  | .vInt n => .ok (.vFloat (n : Rat))
  | .vBool b => .ok (.vFloat (if b then 1 else 0))
  | .vFloat q => .ok (.vFloat q)
  | .vNaN => .ok .vNaN
  | .vInf b => .ok (.vInf b)
  | .vNull => .error .typeError
  | .vStr _ => .error .typeError
  | .vList _ => .error .typeError
  | .vDict _ => .error .typeError

/-- Decimal digits of `n / d` (`n < d`), up to the fuel bound, stopping
when the remainder is zero; used only to render a float as text. -/
def fracDigitsAux : Nat → Nat → Nat → List Char
  | 0, _, _ => []
  | fuel + 1, n, d =>
    if n = 0 then []
    else Char.ofNat (48 + n * 10 / d) :: fracDigitsAux fuel (n * 10 % d) d

/-- A decimal rendering of a finite float held as a rational.  Python's
`str(float)` (shortest repr of the binary double) is not modelled
exactly; no claim inspects the text of a converted float. -/
def floatRepr (q : Rat) : List Char :=
  let sign : List Char := if q < 0 then ['-'] else []
  let aq := if q < 0 then -q else q
  let ipart := aq.num.toNat / aq.den
  let fds := fracDigitsAux 30 (aq.num.toNat % aq.den) aq.den
  sign ++ (Nat.repr ipart).data ++ '.' :: (if fds = [] then ['0'] else fds)

/-- `str(v)` (line 133), which cannot fail on any value this module can
hold (the `except` at line 134 is dead for them; structured values never
reach line 133 and render as the empty text for totality only). -/
def pyStr : Value → List Char
  | .vStr s => s
  | .vInt n => (toString n).data
  | .vBool b => if b then ['T', 'r', 'u', 'e'] else ['F', 'a', 'l', 's', 'e']
  | .vNull => ['N', 'o', 'n', 'e']
  | .vFloat q => floatRepr q
  | .vNaN => ['n', 'a', 'n']
  | .vInf b => if b then ['-', 'i', 'n', 'f'] else ['i', 'n', 'f']
  | .vList _ => []
  | .vDict _ => []

/-- Lines 114-138 of `opt`: the coercion applied to a found value `v`
under the caller's `default_value`.  Dispatch follows the source order:
the `default_value == None` early return (line 114), the structured
short-circuits (lines 115-116), then the `type(default_value).__name__`
comparisons — `'int'` (a `bool` default does not match), `'float'`
(matched by `nan` and the infinities too, since their Python type is
`float`), `'str'`, and the final best-effort `return v` (line 138).  In
the float branch, a failed `float(...)` conversion is caught by the bare
`except:` whose body is the undefined name `Pass` (line 129, a typo for
`pass`), so the handler itself raises `NameError`. -/
def pyCoerce (default_value : Value) (v : Value) : Except PyErr Value :=
  match default_value with
  | .vNull => .ok v
  | _ =>
    match v with
    | .vDict d => .ok (.vDict d)
    | .vList l => .ok (.vList l)
    | _ =>
      match default_value with
      | .vInt _ =>
        match v with
        | .vStr s =>
          match reIntSearch s with
          | none => .ok (.vInt 0)
          | some m => .ok (.vInt (pyIntOfDigits m))
        | _ => pyIntExcept v
      | .vFloat _ | .vNaN | .vInf _ =>
        match v with
        | .vStr s =>
          match reFloatSearch s with
          | none => .ok (.vFloat 0)
          | some m =>
            match pyFloatLit m with
            | some q => .ok (.vFloat q)
            | none => .error .nameError
        | _ => pyFloatExcept v
      | .vStr _ => .ok (.vStr (pyStr v))
      | _ => .ok v

/-- Whether a value is Python `dict` or `list` — the structured shapes
`--label=json:` syntax can produce, short-circuited at lines 115-116. -/
def isStructured (v : Value) : Bool :=
  match v with
  | .vList _ => true
  | .vDict _ => true
  | _ => false

/-- Lines 100-107 of `opt`: the value found for `label`, trying
`local_dict`, then `self.ctl_dict`, then `self.config_dict` when that
attribute exists; `none` means no source contains the label. -/
def resolveVal (fa : FreeArgs) (label : List Char)
    (local_dict : List (List Char × Value)) : Option Value :=
  match lookupD local_dict label with
  | some v => some v
  | none =>
    match lookupD fa.ctl_dict label with
    | some v => some v
    | none =>
      match fa.config_dict with
      | some cfg => lookupD cfg label
      | none => none

/-- `FreeArgs.opt(label, default_value=None, local_dict={})`
(lines 80-138): resolve across the three sources, returning
`default_value` untouched when the label is absent everywhere
(line 108), and otherwise coercing the found value. -/
def opt (fa : FreeArgs) (label : List Char) (default_value : Value := .vNull)
    (local_dict : List (List Char × Value) := []) : Except PyErr Value :=
  match resolveVal fa label local_dict with
  | none => .ok default_value
  | some v => pyCoerce default_value v

/-- The token list of the module's unit test `test_01_parse_args`
(lines 210-219), which claim C1's end-to-end scenario uses (with the
json payload written without spaces, as the claim states it). -/
def c1_tokens : List (List Char) :=
  ["-xyz".data, "--abc-def".data, "--qwe-rty=foo".data, "faz".data,
   "--qwe-rty=bar".data, "baz".data,
   "--complex=json:[\"ichi\",\"ni\",\"san\",\"shi\"]".data, "--finally=42".data]

/-! ### Helper lemmas -/

theorem takeWhile_middle (p : Char → Bool) (l₁ : List Char) (c : Char)
    (l₂ : List Char) (h : ∀ x ∈ l₁, p x = true) (hc : p c = false) :
    (l₁ ++ c :: l₂).takeWhile p = l₁ := by
  induction l₁ with
  | nil => simp [List.takeWhile_cons, hc]
  | cons a t ih =>
    have ha : p a = true := h a (List.mem_cons_self a t)
    have ht : ∀ x ∈ t, p x = true := fun x hx => h x (List.mem_cons_of_mem a hx)
    simp [List.takeWhile_cons, ha, ih ht]

theorem mem_keys_dictInsert (d : List (List Char × Value)) (k : List Char)
    (v : Value) (k' : List Char)
    (h : k' ∈ (dictInsert d k v).map Prod.fst) :
    k' = k ∨ k' ∈ d.map Prod.fst := by
  induction d with
  | nil =>
    simp [dictInsert] at h
    exact Or.inl h
  | cons e t ih =>
    obtain ⟨k₁, v₁⟩ := e
    by_cases he : k₁ = k
    · simp only [dictInsert, if_pos he, List.map_cons, List.mem_cons] at h
      rcases h with h | h
      · exact Or.inl h
      · exact Or.inr (List.mem_cons_of_mem k₁ h)
    · simp only [dictInsert, if_neg he, List.map_cons, List.mem_cons] at h
      rcases h with h | h
      · exact Or.inr (by rw [h]; exact List.mem_cons_self _ _)
      · rcases ih h with h2 | h2
        · exact Or.inl h2
        · exact Or.inr (List.mem_cons_of_mem k₁ h2)

theorem splitDash_no_dash (raw : List Char) : ∀ p ∈ splitDash raw, '-' ∉ p := by
  induction raw with
  | nil => simp [splitDash]
  | cons c t ih =>
    by_cases hc : c = '-'
    · intro p hp
      simp only [splitDash, if_pos hc, List.mem_cons] at hp
      rcases hp with rfl | hp
      · simp
      · exact ih p hp
    · intro p hp
      simp only [splitDash, if_neg hc] at hp
      cases hs : splitDash t with
      | nil =>
        rw [hs] at hp
        simp only [List.mem_singleton] at hp
        subst hp
        simp [Ne.symm hc]
      | cons hd tl =>
        rw [hs] at hp
        simp only [List.mem_cons] at hp
        rcases hp with rfl | hp
        · have hhd : '-' ∉ hd := ih hd (by rw [hs]; exact List.mem_cons_self hd tl)
          simp [Ne.symm hc, hhd]
        · exact ih p (by rw [hs]; exact List.mem_cons_of_mem hd hp)

theorem joinUnderscore_no_dash (ps : List (List Char))
    (h : ∀ p ∈ ps, '-' ∉ p) : '-' ∉ joinUnderscore ps := by
  induction ps with
  | nil => simp [joinUnderscore]
  | cons p tl ih =>
    cases tl with
    | nil => simpa [joinUnderscore] using h p (by simp)
    | cons q r =>
      have hp : '-' ∉ p := h p (by simp)
      have htl : '-' ∉ joinUnderscore (q :: r) :=
        ih (fun x hx => h x (List.mem_cons_of_mem p hx))
      simp only [joinUnderscore, List.mem_append, List.mem_cons]
      rintro (hm | hm | hm)
      · exact hp hm
      · exact absurd hm (by decide)
      · exact htl hm

theorem transform_label_no_dash (raw : List Char) : '-' ∉ transform_label raw :=
  joinUnderscore_no_dash _ (splitDash_no_dash raw)

theorem mem_keys_foldl_flags (cs : List Char)
    (d : List (List Char × Value)) (k : List Char)
    (h : k ∈ (cs.foldl (fun d c => dictInsert d [c] (.vInt (-1))) d).map Prod.fst) :
    k ∈ d.map Prod.fst ∨ k.length = 1 := by
  induction cs generalizing d with
  | nil => exact Or.inl h
  | cons c cs ih =>
    rw [List.foldl_cons] at h
    rcases ih (dictInsert d [c] (.vInt (-1))) h with h2 | h2
    · rcases mem_keys_dictInsert _ _ _ _ h2 with rfl | h3
      · exact Or.inr rfl
      · exact Or.inl h3
    · exact Or.inr h2

theorem parseStep_keys (st st' : List (List Char × Value) × List (List Char))
    (a k : List Char) (h : parseStep st a = .ok st')
    (hk : k ∈ st'.1.map Prod.fst) :
    k ∈ st.1.map Prod.fst ∨ '-' ∉ k ∨ k.length = 1 := by
  cases hS : matchShort a with
  | some cs =>
    simp only [parseStep, hS, Except.ok.injEq] at h
    subst h
    rcases mem_keys_foldl_flags cs st.1 k hk with h1 | h1
    · exact Or.inl h1
    · exact Or.inr (Or.inr h1)
  | none =>
    cases hJ : matchJson a with
    | some lp =>
      obtain ⟨lbl, payload⟩ := lp
      cases hL : json_loads payload with
      | some v =>
        simp only [parseStep, hS, hJ, hL, Except.ok.injEq] at h
        subst h
        rcases mem_keys_dictInsert _ _ _ _ hk with rfl | h1
        · exact Or.inr (Or.inl (transform_label_no_dash lbl))
        · exact Or.inl h1
      | none =>
        simp only [parseStep, hS, hJ, hL] at h
        exact Except.noConfusion h
    | none =>
      cases hP : matchPlain a with
      | some lp =>
        obtain ⟨lbl, val⟩ := lp
        simp only [parseStep, hS, hJ, hP, Except.ok.injEq] at h
        subst h
        rcases mem_keys_dictInsert _ _ _ _ hk with rfl | h1
        · exact Or.inr (Or.inl (transform_label_no_dash lbl))
        · exact Or.inl h1
      | none =>
        cases hF : matchFlag a with
        | some lbl =>
          simp only [parseStep, hS, hJ, hP, hF, Except.ok.injEq] at h
          subst h
          rcases mem_keys_dictInsert _ _ _ _ hk with rfl | h1
          · exact Or.inr (Or.inl (transform_label_no_dash lbl))
          · exact Or.inl h1
        | none =>
          simp only [parseStep, hS, hJ, hP, hF, Except.ok.injEq] at h
          subst h
          exact Or.inl hk

theorem parseLoop_keys (args : List (List Char))
    (st : List (List Char × Value) × List (List Char)) (k : List Char)
    (h : k ∈ (parseLoop st args).1.1.map Prod.fst) :
    k ∈ st.1.map Prod.fst ∨ '-' ∉ k ∨ k.length = 1 := by
  induction args generalizing st with
  | nil => exact Or.inl h
  | cons a rest ih =>
    cases hS : parseStep st a with
    | ok st' =>
      simp only [parseLoop, hS] at h
      rcases ih st' h with h1 | h1
      · exact parseStep_keys st st' a k hS h1
      · exact Or.inr h1
    | error e =>
      simp only [parseLoop, hS] at h
      exact Or.inl h

theorem matchShort_dd (rest : List Char) : matchShort ('-' :: '-' :: rest) = none := rfl

theorem matchJson_shape (a : List Char) (x : List Char × List Char)
    (h : matchJson a = some x) : ∃ rest, a = '-' :: '-' :: rest := by
  match a with
  | [] => rw [show matchJson [] = none from rfl] at h; exact Option.noConfusion h
  | [c] =>
    exfalso
    have hn : matchJson [c] = none := by
      by_cases hc : c = '-'
      · subst hc; rfl
      · unfold matchJson
        simp [List.takeWhile_cons, hc]
    rw [hn] at h; exact Option.noConfusion h
  | c1 :: c2 :: rest =>
    refine ⟨rest, ?_⟩
    by_cases h1 : c1 = '-'
    · by_cases h2 : c2 = '-'
      · rw [h1, h2]
      · exfalso
        have hn : matchJson (c1 :: c2 :: rest) = none := by
          subst h1
          unfold matchJson
          simp [List.takeWhile_cons, h2]
        rw [hn] at h; exact Option.noConfusion h
    · exfalso
      have hn : matchJson (c1 :: c2 :: rest) = none := by
        unfold matchJson
        simp [List.takeWhile_cons, h1]
      rw [hn] at h; exact Option.noConfusion h

theorem parseStep_error_iff (st : List (List Char × Value) × List (List Char))
    (a : List Char) :
    (∃ e, parseStep st a = .error e) ↔
      ∃ lbl payload, matchJson a = some (lbl, payload) ∧ json_loads payload = none := by
  constructor
  · rintro ⟨e, h⟩
    cases hS : matchShort a with
    | some cs => simp only [parseStep, hS] at h; exact Except.noConfusion h
    | none =>
      cases hJ : matchJson a with
      | none =>
        cases hP : matchPlain a with
        | some lp =>
          obtain ⟨lbl, val⟩ := lp
          simp only [parseStep, hS, hJ, hP] at h
          exact Except.noConfusion h
        | none =>
          cases hF : matchFlag a with
          | some lbl =>
            simp only [parseStep, hS, hJ, hP, hF] at h
            exact Except.noConfusion h
          | none =>
            simp only [parseStep, hS, hJ, hP, hF] at h
            exact Except.noConfusion h
      | some lp =>
        obtain ⟨lbl, payload⟩ := lp
        cases hL : json_loads payload with
        | some v =>
          simp only [parseStep, hS, hJ, hL] at h
          exact Except.noConfusion h
        | none => exact ⟨lbl, payload, rfl, hL⟩
  · rintro ⟨lbl, payload, hJ, hL⟩
    obtain ⟨rest, rfl⟩ := matchJson_shape a _ hJ
    refine ⟨.jsonDecodeError, ?_⟩
    simp only [parseStep, matchShort_dd, hJ, hL]

theorem parseLoop_error_iff (args : List (List Char))
    (st : List (List Char × Value) × List (List Char)) :
    (parseLoop st args).2.isSome = true ↔
      ∃ a ∈ args, ∃ lbl payload,
        matchJson a = some (lbl, payload) ∧ json_loads payload = none := by
  induction args generalizing st with
  | nil => simp [parseLoop]
  | cons a rest ih =>
    cases hS : parseStep st a with
    | ok st' =>
      have hna : ¬ ∃ lbl payload,
          matchJson a = some (lbl, payload) ∧ json_loads payload = none := by
        intro hx
        obtain ⟨e, he⟩ := (parseStep_error_iff st a).2 hx
        rw [hS] at he
        exact Except.noConfusion he
      simp only [parseLoop, hS]
      rw [ih st']
      constructor
      · rintro ⟨a', ha', hx⟩
        exact ⟨a', List.mem_cons_of_mem _ ha', hx⟩
      · rintro ⟨a', ha', hx⟩
        rcases List.mem_cons.1 ha' with rfl | ha'
        · exact absurd hx hna
        · exact ⟨a', ha', hx⟩
    | error e =>
      have hx := (parseStep_error_iff st a).1 ⟨e, hS⟩
      simp only [parseLoop, hS, Option.isSome_some]
      exact ⟨fun _ => ⟨a, List.mem_cons_self a rest, hx⟩, fun _ => trivial⟩

theorem matchJson_form (lbl payload : List Char) (h1 : lbl ≠ []) (h2 : '=' ∉ lbl) :
    (payload.takeWhile (fun c => c != '\n') = [] →
      matchJson ('-' :: '-' :: (lbl ++ '=' :: 'j' :: 's' :: 'o' :: 'n' :: ':' :: payload)) =
        none) ∧
    (payload.takeWhile (fun c => c != '\n') ≠ [] →
      ∃ lbl2,
        matchJson ('-' :: '-' :: (lbl ++ '=' :: 'j' :: 's' :: 'o' :: 'n' :: ':' :: payload)) =
          some (lbl2, payload.takeWhile (fun c => c != '\n'))) := by
  have hlen : 0 < lbl.length := List.length_pos.2 h1
  set a := '-' :: '-' :: (lbl ++ '=' :: 'j' :: 's' :: 'o' :: 'n' :: ':' :: payload) with ha
  have hD : a.takeWhile (fun c => c == '-') =
      '-' :: '-' :: ((lbl ++ '=' :: 'j' :: 's' :: 'o' :: 'n' :: ':' :: payload).takeWhile
        (fun c => c == '-')) := rfl
  have hsplit : a = ('-' :: '-' :: lbl) ++ '=' :: 'j' :: 's' :: 'o' :: 'n' :: ':' :: payload := by
    rw [ha]; simp
  have hE : a.takeWhile (fun c => c != '=') = '-' :: '-' :: lbl := by
    rw [hsplit]
    refine takeWhile_middle _ _ _ _ ?_ (by decide)
    intro x hx
    rcases List.mem_cons.1 hx with rfl | hx
    · decide
    rcases List.mem_cons.1 hx with rfl | hx
    · decide
    exact bne_iff_ne.2 (ne_of_mem_of_not_mem hx h2)
  have hElen : (a.takeWhile (fun c => c != '=')).length = lbl.length + 2 := by
    rw [hE]; simp
  have halen : a.length = lbl.length + 8 + payload.length := by
    rw [ha]; simp [List.length_append]; omega
  have hsplit2 :
      a = (('-' :: '-' :: lbl) ++ ['=']) ++ 'j' :: 's' :: 'o' :: 'n' :: ':' :: payload := by
    rw [ha]; simp
  have hDrop : a.drop (lbl.length + 2 + 1) = 'j' :: 's' :: 'o' :: 'n' :: ':' :: payload := by
    conv_lhs => rw [hsplit2]
    rw [show lbl.length + 2 + 1 = (('-' :: '-' :: lbl) ++ ['=']).length from by simp]
    exact List.drop_left _ _
  have hd2 : ¬ ((a.takeWhile (fun c => c == '-')).length < 2) := by
    rw [hD]; simp only [List.length_cons]; omega
  have hne2 : ¬ ((a.takeWhile (fun c => c != '=')).length = a.length) := by
    rw [hElen, halen]; omega
  have hq2 : ¬ (min ((a.takeWhile (fun c => c == '-')).length)
      ((a.takeWhile (fun c => c != '=')).length - 1) < 2) := by
    rw [hElen, hD]; simp only [List.length_cons]; omega
  constructor
  · intro hp
    simp only [matchJson]
    rw [if_neg hd2, if_neg hne2, if_neg hq2, hElen, hDrop]
    rw [show ('j' :: 's' :: 'o' :: 'n' :: ':' :: payload).take 5 = ['j', 's', 'o', 'n', ':']
      from rfl]
    rw [if_pos rfl]
    rw [show ('j' :: 's' :: 'o' :: 'n' :: ':' :: payload).drop 5 = payload from rfl]
    rw [if_pos hp]
  · intro hp
    simp only [matchJson]
    rw [if_neg hd2, if_neg hne2, if_neg hq2, hElen, hDrop]
    rw [show ('j' :: 's' :: 'o' :: 'n' :: ':' :: payload).take 5 = ['j', 's', 'o', 'n', ':']
      from rfl]
    rw [if_pos rfl]
    rw [show ('j' :: 's' :: 'o' :: 'n' :: ':' :: payload).drop 5 = payload from rfl]
    rw [if_neg hp]
    exact ⟨_, rfl⟩

theorem matchPlain_form (lbl val : List Char) (h1 : lbl ≠ []) (h2 : '=' ∉ lbl) :
    matchPlain ('-' :: '-' :: (lbl ++ '=' :: val)) =
      some (lbl, val.takeWhile (fun c => c != '\n')) := by
  have hpre : (lbl ++ '=' :: val).takeWhile (fun c => c != '=') = lbl :=
    takeWhile_middle _ _ _ _
      (fun x hx => bne_iff_ne.2 (ne_of_mem_of_not_mem hx h2)) (by decide)
  have hdrop : (lbl ++ '=' :: val).drop (lbl.length + 1) = val := by
    rw [show lbl ++ '=' :: val = (lbl ++ ['=']) ++ val from by simp]
    rw [show lbl.length + 1 = (lbl ++ ['=']).length from by simp]
    exact List.drop_left _ _
  have hne : ¬ (lbl.length = (lbl ++ '=' :: val).length) := by
    simp only [List.length_append, List.length_cons]; omega
  simp only [matchPlain]
  rw [hpre, if_neg h1, if_neg hne, hdrop]

/-! ### Claim theorems -/

/-- Claim C1: on the token list of the end-to-end scenario, `parse_args`
returns `(7, 2)`, the document sequence is `['faz', 'baz']` in order, and
a subsequent `opt('qwe_rty')` with no default resolves to the text
`'bar'` (the later `--qwe-rty=bar` overwrote `foo`). -/
theorem claim1_end_to_end :
    (parse_args emptyFA c1_tokens).2 = .ok (7, 2) ∧
    (parse_args emptyFA c1_tokens).1.doc_list = ["faz".data, "baz".data] ∧
    opt (parse_args emptyFA c1_tokens).1 "qwe_rty".data = .ok (.vStr "bar".data) :=
  ⟨rfl, rfl, rfl⟩

/-- Claim C2: `opt` resolves the value from the first source containing the
label — the per-call local mapping, then the option table, then the
attached configuration mapping when present — regardless of the stored
value, and returns the caller's default untouched (no coercion) when no
source contains the label. -/
theorem claim2_resolution_order (fa : FreeArgs) (label : List Char)
    (d : Value) (ld : List (List Char × Value)) :
    (∀ v, lookupD ld label = some v → opt fa label d ld = pyCoerce d v) ∧
    (lookupD ld label = none → ∀ v, lookupD fa.ctl_dict label = some v →
      opt fa label d ld = pyCoerce d v) ∧
    (lookupD ld label = none → lookupD fa.ctl_dict label = none →
      ∀ cfg v, fa.config_dict = some cfg → lookupD cfg label = some v →
        opt fa label d ld = pyCoerce d v) ∧
    (lookupD ld label = none → lookupD fa.ctl_dict label = none →
      (∀ cfg, fa.config_dict = some cfg → lookupD cfg label = none) →
      opt fa label d ld = .ok d) := by
  refine ⟨?_, ?_, ?_, ?_⟩
  · intro v h
    simp only [opt, resolveVal, h]
  · intro h v h2
    simp only [opt, resolveVal, h, h2]
  · intro h h2 cfg v hc hv
    simp only [opt, resolveVal, h, h2, hc, hv]
  · intro h h2 h3
    cases hc : fa.config_dict with
    | none => simp only [opt, resolveVal, h, h2, hc]
    | some cfg => simp only [opt, resolveVal, h, h2, hc, h3 cfg hc]

/-- Witness for C2, exercising all four source cases at concrete inputs. -/
theorem claim2_resolution_order_witness :
    opt ⟨[(['x'], .vInt (-1))], [], some [(['x'], .vInt 7)]⟩ ['x'] (.vInt 9)
      [(['x'], .vInt 5)] = .ok (.vInt 5) ∧
    opt ⟨[(['x'], .vInt (-1))], [], some [(['x'], .vInt 7)]⟩ ['x'] (.vInt 9) [] =
      .ok (.vInt (-1)) ∧
    opt ⟨[], [], some [(['x'], .vInt 7)]⟩ ['x'] (.vInt 9) [] = .ok (.vInt 7) ∧
    opt ⟨[], [], none⟩ ['x'] (.vInt 9) [] = .ok (.vInt 9) := by
  refine ⟨?_, ?_, ?_, ?_⟩
  · exact ((claim2_resolution_order ⟨[(['x'], .vInt (-1))], [], some [(['x'], .vInt 7)]⟩
      ['x'] (.vInt 9) [(['x'], .vInt 5)]).1 (.vInt 5) rfl).trans rfl
  · exact (((claim2_resolution_order ⟨[(['x'], .vInt (-1))], [], some [(['x'], .vInt 7)]⟩
      ['x'] (.vInt 9) []).2.1 rfl) (.vInt (-1)) rfl).trans rfl
  · exact (((claim2_resolution_order ⟨[], [], some [(['x'], .vInt 7)]⟩
      ['x'] (.vInt 9) []).2.2.1 rfl rfl) [(['x'], .vInt 7)] (.vInt 7) rfl rfl).trans rfl
  · exact ((claim2_resolution_order ⟨[], [], none⟩ ['x'] (.vInt 9) []).2.2.2 rfl rfl
      (fun cfg h => Option.noConfusion h))

/-- Counterexample to claim C3 as stated: parsing `['-a-']` puts the key
`'-'` — a single hyphen — into the option table, because the short flag
cluster branch takes each character of the remainder verbatim and never
normalizes. -/
theorem claim3_counterexample :
    ['-'] ∈ (parse_args emptyFA ["-a-".data]).1.ctl_dict.map Prod.fst ∧
    '-' ∈ (['-'] : List Char) := by
  constructor
  · have h : (parse_args emptyFA ["-a-".data]).1.ctl_dict.map Prod.fst =
        [['a'], ['-']] := rfl
    rw [h]
    simp
  · simp

/-- Claim C3 (amended): after any parse, every option-table key produced by
the three long-option branches has had its hyphens rewritten to
underscores, so any key that still contains a hyphen can only be a
single character from the short flag cluster branch: every key either
contains no hyphen or has length one. -/
theorem claim3_no_hyphen_amended (fa : FreeArgs) (args : List (List Char))
    (k : List Char) (hk : k ∈ (parse_args fa args).1.ctl_dict.map Prod.fst) :
    '-' ∉ k ∨ k.length = 1 := by
  have h : k ∈ (parseLoop ([], []) args).1.1.map Prod.fst := hk
  rcases parseLoop_keys args ([], []) k h with h1 | h1
  · simp at h1
  · exact h1

/-- Witness for the amended C3 at a concrete parse. -/
theorem claim3_no_hyphen_amended_witness :
    '-' ∉ (['a'] : List Char) ∨ (['a'] : List Char).length = 1 :=
  claim3_no_hyphen_amended emptyFA ["-a-".data] ['a'] (by decide)

/-- Claim C4 is refuted by the code: after parsing `--f=1e`, looking up
`f` with float default `0.0` extracts the substring `1e`, whose
`float(...)` conversion fails; the bare `except:` handler then evaluates
the undefined name `Pass` (line 129, a typo for `pass`), so the call
raises `NameError` instead of swallowing the failure and returning
`0.0`. -/
theorem claim4_swallow_bug :
    (parse_args emptyFA ["--f=1e".data]).1.ctl_dict = [(['f'], .vStr ['1', 'e'])] ∧
    opt (parse_args emptyFA ["--f=1e".data]).1 ['f'] (.vFloat 0) [] =
      .error .nameError :=
  ⟨rfl, rfl⟩

/-- Claim C5: with an integer default and a found non-structured value,
`opt` applies `int(v)` directly when the value is not text; on text it
returns the integer of the first `-?digits` substring, or `0` when no
such substring exists; in particular the sentinel `-1` of a bare flag
resolves to `-1`, never to the default. -/
theorem claim5_int_coercion (fa : FreeArgs) (label : List Char)
    (ld : List (List Char × Value)) (n : Int) (v : Value)
    (hv : resolveVal fa label ld = some v) (hs : isStructured v = false) :
    ((∀ s, v ≠ .vStr s) → opt fa label (.vInt n) ld = pyIntExcept v) ∧
    (∀ s, v = .vStr s →
      opt fa label (.vInt n) ld =
        .ok (.vInt (match reIntSearch s with
          | some m => pyIntOfDigits m
          | none => 0))) ∧
    (∀ s, v = .vStr s → reIntSearch s = none →
      opt fa label (.vInt n) ld = .ok (.vInt 0)) ∧
    (v = .vInt (-1) → opt fa label (.vInt n) ld = .ok (.vInt (-1))) := by
  have hbase : opt fa label (.vInt n) ld = pyCoerce (.vInt n) v := by
    simp only [opt, hv]
  refine ⟨?_, ?_, ?_, ?_⟩
  · intro hns
    rw [hbase]
    cases v with
    | vStr s => exact absurd rfl (hns s)
    | vList xs => simp [isStructured] at hs
    | vDict es => simp [isStructured] at hs
    | vNull => rfl
    | vBool b => rfl
    | vInt m => rfl
    | vFloat q => rfl
    | vNaN => rfl
    | vInf b => rfl
  · intro s hvs
    subst hvs
    rw [hbase]
    cases hR : reIntSearch s <;> simp [pyCoerce, hR]
  · intro s hvs hnone
    subst hvs
    rw [hbase]
    simp [pyCoerce, hnone]
  · intro hvi
    subst hvi
    rw [hbase]
    rfl

/-- Witness for C5: the sentinel case, a text with an embedded number,
and a digit-free text. -/
theorem claim5_int_coercion_witness :
    opt ⟨[(['f'], .vInt (-1))], [], none⟩ ['f'] (.vInt 42) [] = .ok (.vInt (-1)) ∧
    opt ⟨[(['a'], .vStr ['x', '7'])], [], none⟩ ['a'] (.vInt 1) [] = .ok (.vInt 7) ∧
    opt ⟨[(['a'], .vStr ['x'])], [], none⟩ ['a'] (.vInt 1) [] = .ok (.vInt 0) := by
  refine ⟨?_, ?_, ?_⟩
  · exact (claim5_int_coercion ⟨[(['f'], .vInt (-1))], [], none⟩ ['f'] [] 42
      (.vInt (-1)) rfl rfl).2.2.2 rfl
  · exact ((claim5_int_coercion ⟨[(['a'], .vStr ['x', '7'])], [], none⟩ ['a'] [] 1
      (.vStr ['x', '7']) rfl rfl).2.1 ['x', '7'] rfl).trans rfl
  · exact (claim5_int_coercion ⟨[(['a'], .vStr ['x'])], [], none⟩ ['a'] [] 1
      (.vStr ['x']) rfl rfl).2.2.1 ['x'] rfl rfl

/-- Counterexample to claim C6 as stated: the token `--a=json:\nx` has a
non-empty label, a non-empty payload `\nx` that is not valid JSON — yet
`parse_args` does not raise: because `.` in the pattern does not match a
newline, the json branch fails to match and the plain-value branch
stores the text `json:` under `a`. -/
theorem claim6_counterexample :
    json_loads "\nx".data = none ∧ "\nx".data ≠ [] ∧
    parse_args emptyFA ["--a=json:\nx".data] =
      ({ emptyFA with ctl_dict := [(['a'], .vStr "json:".data)], doc_list := [] },
        .ok (1, 0)) :=
  ⟨rfl, by decide, rfl⟩

/-- Claim C6 (amended): `parse_args` raises an exception exactly when some
token matches the json branch with an extracted payload that fails to
decode — no other input makes it fail; and a token
`--<label>=json:<payload>` with a non-empty `=`-free label and a payload
not starting with a newline does match the json branch, its extracted
payload being the payload truncated at its first newline. -/
theorem claim6_json_failure (fa : FreeArgs) (args : List (List Char)) :
    ((∃ e, (parse_args fa args).2 = .error e) ↔
      ∃ a ∈ args, ∃ lbl payload,
        matchJson a = some (lbl, payload) ∧ json_loads payload = none) ∧
    (∀ lbl payload, lbl ≠ [] → '=' ∉ lbl → payload.headD '\n' ≠ '\n' →
      ∃ lbl2,
        matchJson ("--".data ++ lbl ++ "=json:".data ++ payload) =
          some (lbl2, payload.takeWhile (fun c => c != '\n'))) := by
  constructor
  · have hl := parseLoop_error_iff args ([], [])
    have hpa : (parse_args fa args).2 =
        (match (parseLoop ([], []) args).2 with
          | none => Except.ok ((parseLoop ([], []) args).1.1.length,
              (parseLoop ([], []) args).1.2.length)
          | some e => Except.error e) := rfl
    cases hO : (parseLoop ([], []) args).2 with
    | none =>
      rw [hO] at hl
      rw [hpa, hO]
      constructor
      · rintro ⟨e, he⟩
        exact Except.noConfusion he
      · intro hx
        exact absurd (hl.2 hx) (by simp)
    | some e' =>
      rw [hO] at hl
      rw [hpa, hO]
      exact ⟨fun _ => hl.1 rfl, fun _ => ⟨e', rfl⟩⟩
  · intro lbl payload hl1 hl2 hl3
    have hpne : payload.takeWhile (fun c => c != '\n') ≠ [] := by
      cases payload with
      | nil => exact absurd rfl hl3
      | cons c t =>
        have hc : c ≠ '\n' := by simpa using hl3
        simp [List.takeWhile_cons, bne_iff_ne.2 hc]
    have harg : ("--".data ++ lbl ++ "=json:".data ++ payload) =
        '-' :: '-' :: (lbl ++ '=' :: 'j' :: 's' :: 'o' :: 'n' :: ':' :: payload) := by
      rw [show ("--".data : List Char) = ['-', '-'] from rfl,
        show ("=json:".data : List Char) = ['=', 'j', 's', 'o', 'n', ':'] from rfl]
      simp
    rw [harg]
    exact (matchJson_form lbl payload hl1 hl2).2 hpne

/-- Witness for the amended C6: a failing parse and a matching token
shape at concrete inputs. -/
theorem claim6_json_failure_witness :
    (∃ e, (parse_args emptyFA ["--b=json:x".data]).2 = .error e) ∧
    (∃ lbl2, matchJson ("--".data ++ ['b'] ++ "=json:".data ++ ['x']) =
      some (lbl2, (['x'] : List Char).takeWhile (fun c => c != '\n'))) := by
  have h := claim6_json_failure emptyFA ["--b=json:x".data]
  constructor
  · exact h.1.2 ⟨"--b=json:x".data, by simp, ['b'], ['x'], rfl, rfl⟩
  · exact h.2 ['b'] ['x'] (by decide) (by decide) (by decide)

/-- Claim C7: a second `parse_args` call fully replaces the option table
and document sequence (and the returned counts), leaving exactly the
state of parsing the second list alone; the empty token list yields
empty containers and `(0, 0)`. -/
theorem claim7_full_replacement (fa : FreeArgs) (a b : List (List Char)) :
    (parse_args (parse_args fa a).1 b).1.ctl_dict = (parse_args fa b).1.ctl_dict ∧
    (parse_args (parse_args fa a).1 b).1.doc_list = (parse_args fa b).1.doc_list ∧
    (parse_args (parse_args fa a).1 b).2 = (parse_args fa b).2 ∧
    parse_args fa [] = ({ fa with ctl_dict := [], doc_list := [] }, .ok (0, 0)) :=
  ⟨rfl, rfl, rfl, rfl⟩

/-- Witness for C7 at concrete token lists. -/
theorem claim7_full_replacement_witness :
    (parse_args (parse_args emptyFA [['-', 'x']]).1 [['d']]).1.ctl_dict =
      (parse_args emptyFA [['d']]).1.ctl_dict ∧
    (parse_args (parse_args emptyFA [['-', 'x']]).1 [['d']]).1.doc_list =
      (parse_args emptyFA [['d']]).1.doc_list ∧
    (parse_args (parse_args emptyFA [['-', 'x']]).1 [['d']]).2 =
      (parse_args emptyFA [['d']]).2 ∧
    parse_args emptyFA [] =
      ({ emptyFA with ctl_dict := [], doc_list := [] }, .ok (0, 0)) :=
  claim7_full_replacement emptyFA [['-', 'x']] [['d']]

/-- Claim C8: the token `--` is handled by the long-flag branch with the
empty string as label: it maps the empty-string key to the sentinel `-1`
and is not appended to the document sequence (there is no POSIX-style
end-of-options separator). -/
theorem claim8_double_dash (st : List (List Char × Value) × List (List Char)) :
    parseStep st ['-', '-'] = .ok (dictInsert st.1 [] (.vInt (-1)), st.2) ∧
    parse_args emptyFA [['-', '-']] =
      ({ emptyFA with ctl_dict := [([], .vInt (-1))], doc_list := [] }, .ok (1, 0)) :=
  ⟨rfl, rfl⟩

/-- Witness for C8 at the empty starting state. -/
theorem claim8_double_dash_witness :
    parseStep ([], []) ['-', '-'] = .ok ([([], .vInt (-1))], []) ∧
    parse_args emptyFA [['-', '-']] =
      ({ emptyFA with ctl_dict := [([], .vInt (-1))], doc_list := [] }, .ok (1, 0)) :=
  claim8_double_dash ([], [])

/-- Claim C9: a token `--<label>=json:` with an empty payload is not a
structured-value option and does not fail: the json branch requires a
non-empty payload, so the plain-value branch matches and the option
table maps the normalized label to the literal text `json:`, with no
JSON decoding attempted. -/
theorem claim9_empty_json_payload (fa : FreeArgs) (lbl : List Char)
    (h1 : lbl ≠ []) (h2 : '=' ∉ lbl) :
    parse_args fa ["--".data ++ lbl ++ "=json:".data] =
      ({ fa with
          ctl_dict := [(transform_label lbl, .vStr "json:".data)],
          doc_list := [] }, .ok (1, 0)) := by
  have hJ : matchJson ('-' :: '-' :: (lbl ++ '=' :: 'j' :: 's' :: 'o' :: 'n' :: ':' ::
      ([] : List Char))) = none :=
    (matchJson_form lbl [] h1 h2).1 rfl
  have hP := matchPlain_form lbl ('j' :: 's' :: 'o' :: 'n' :: ':' :: []) h1 h2
  have hstep : parseStep ([], []) ('-' :: '-' :: (lbl ++ '=' :: 'j' :: 's' :: 'o' :: 'n' ::
      ':' :: ([] : List Char))) =
      .ok ([(transform_label lbl, .vStr "json:".data)], []) := by
    simp only [parseStep, matchShort_dd, hJ, hP]
    rfl
  have harg : ("--".data ++ lbl ++ "=json:".data : List Char) =
      '-' :: '-' :: (lbl ++ '=' :: 'j' :: 's' :: 'o' :: 'n' :: ':' :: ([] : List Char)) := by
    rw [show ("--".data : List Char) = ['-', '-'] from rfl,
      show ("=json:".data : List Char) = ['=', 'j', 's', 'o', 'n', ':'] from rfl]
    simp
  rw [harg]
  simp only [parse_args, parseLoop, hstep]
  rfl

/-- Witness for C9 with a hyphenated label. -/
theorem claim9_empty_json_payload_witness :
    parse_args emptyFA ["--".data ++ ['a', '-', 'b'] ++ "=json:".data] =
      ({ emptyFA with
          ctl_dict := [(transform_label ['a', '-', 'b'], .vStr "json:".data)],
          doc_list := [] }, .ok (1, 0)) :=
  claim9_empty_json_payload emptyFA ['a', '-', 'b'] (by decide) (by decide)

/-- Claim C10: with a boolean default and a found non-structured value, the
value is returned unchanged — the dispatch compares the exact type name,
so a `bool` default never enters the integer branch even though `bool`
is an `int` subclass in Python. -/
theorem claim10_bool_default_identity (fa : FreeArgs) (label : List Char)
    (ld : List (List Char × Value)) (b : Bool) (v : Value)
    (hv : resolveVal fa label ld = some v) (hs : isStructured v = false) :
    opt fa label (.vBool b) ld = .ok v := by
  have hbase : opt fa label (.vBool b) ld = pyCoerce (.vBool b) v := by
    simp only [opt, hv]
  rw [hbase]
  cases v with
  | vList xs => simp [isStructured] at hs
  | vDict es => simp [isStructured] at hs
  | vNull => rfl
  | vBool b2 => rfl
  | vInt m => rfl
  | vFloat q => rfl
  | vNaN => rfl
  | vInf b2 => rfl
  | vStr s => rfl

/-- Witness for C10: `opt('finally', True)` on a table holding the text
`'42'` returns the text `'42'` — not `42` and not `True`. -/
theorem claim10_bool_default_identity_witness :
    opt ⟨[("finally".data, .vStr ['4', '2'])], [], none⟩ "finally".data
      (.vBool true) [] = .ok (.vStr ['4', '2']) :=
  claim10_bool_default_identity ⟨[("finally".data, .vStr ['4', '2'])], [], none⟩
    "finally".data [] true (.vStr ['4', '2']) rfl rfl

end FreeArgsSpec
